import Mathlib

/-!
Shallow embedding of the SQS Queue Viewer client core (src/src/App.tsx):
queue data model, projection engine (filter + stable sort), favorites
store, polling controller and operation coordinator, together with
theorems checking the specification's claims against these definitions.

Strings coming from the browser runtime are modelled at the character
level: `toLowerCase`, `trim`, `split(',')` and `includes` are embedded
as structurally recursive functions on `List Char`.
-/

namespace SQSViewer

/-- One queue's statistics as returned by the statistics endpoint. -/
structure QueueStatistics where
  approximateNumberOfInvisibleMessages : Nat
  approximateNumberOfMessagesDelayed : Nat
  approximateNumberOfVisibleMessages : Nat
deriving DecidableEq, Repr

/-- One queue record of a snapshot. -/
structure Queue where
  name : String
  statistics : QueueStatistics
deriving DecidableEq, Repr

/-- `String.prototype.toLowerCase`, on the character list of a string. -/
def lowerData (s : String) : List Char :=
  s.data.map Char.toLower

/-- `String.prototype.trim`, on a character list. -/
def trimData (l : List Char) : List Char :=
  ((l.dropWhile Char.isWhitespace).reverse.dropWhile Char.isWhitespace).reverse

/-- `String.prototype.split(',')`, on a character list. -/
def splitComma : List Char → List (List Char)
  | [] => [[]]
  | c :: cs =>
    if c = ',' then [] :: splitComma cs
    else
      match splitComma cs with
      | [] => [[c]]
      | t :: ts => (c :: t) :: ts

/-- `getQueueType` from App.tsx: `FIFO` when the lower-cased name
contains `.fifo`, otherwise `Standard`. -/
def getQueueType (queueName : String) : String :=
  if ".fifo".data <:+: lowerData queueName then "FIFO" else "Standard"

/-- The derived total shown in the `Total` column: visible + delayed +
invisible messages. -/
def totalMessages (q : Queue) : Nat :=
  q.statistics.approximateNumberOfVisibleMessages +
    q.statistics.approximateNumberOfMessagesDelayed +
    q.statistics.approximateNumberOfInvisibleMessages

inductive SortField | name | type | visible | total | invisible
deriving DecidableEq, Repr

inductive SortOrder | asc | desc
deriving DecidableEq, Repr

inductive FilterType | all | standard | fifo | withMessages | favorites
deriving DecidableEq, Repr

/-- Boolean lexicographic `≤` on character lists; the embedding of the
comparator sign of `localeCompare` on the modelled strings. -/
def lexLE : List Char → List Char → Bool
  | [], _ => true
  | _ :: _, [] => false
  | a :: as, b :: bs => if a = b then lexLE as bs else decide (a < b)

/-- The per-field comparison `valueA ≤ valueB` extracted from the
comparator body of `sortQueues` in App.tsx. -/
def fieldLE (field : SortField) (a b : Queue) : Bool :=
  match field with
  | .name => lexLE (lowerData a.name) (lowerData b.name)
  | .type => lexLE (getQueueType a.name).data (getQueueType b.name).data
  | .visible =>
      decide (a.statistics.approximateNumberOfVisibleMessages ≤
        b.statistics.approximateNumberOfVisibleMessages)
  | .total => decide (totalMessages a ≤ totalMessages b)
  | .invisible =>
      decide (a.statistics.approximateNumberOfInvisibleMessages ≤
        b.statistics.approximateNumberOfInvisibleMessages)

/-- The full comparator of `sortQueues`: descending order swaps the two
operands (`valueB` against `valueA`). -/
def queueLE (field : SortField) (order : SortOrder) (a b : Queue) : Bool :=
  match order with
  | .asc => fieldLE field a b
  | .desc => fieldLE field b a

/-- `sortQueues` from App.tsx: a stable comparator sort of the data
(JavaScript `Array.prototype.sort` is specified stable). -/
def sortQueues (data : List Queue) (field : SortField) (order : SortOrder) :
    List Queue :=
  data.insertionSort (fun a b => queueLE field order a b = true)

/-- The comparable projection a record is sorted by for a given field;
two records compare equal under `fieldLE` precisely when these agree. -/
inductive SortKey
  | str (s : List Char)
  | num (n : Nat)
deriving DecidableEq, Repr

/-- The value of the selected field's projection for one record. -/
def sortValue (field : SortField) (q : Queue) : SortKey :=
  match field with
  | .name => .str (lowerData q.name)
  | .type => .str (getQueueType q.name).data
  | .visible => .num q.statistics.approximateNumberOfVisibleMessages
  | .total => .num (totalMessages q)
  | .invisible => .num q.statistics.approximateNumberOfInvisibleMessages

/-- `SortOrder` flip performed by `handleSort` on a repeated click. -/
def SortOrder.flip : SortOrder → SortOrder
  | .asc => .desc
  | .desc => .asc

/-- `handleSort` from App.tsx, as a function of the clicked column and
the current sort criteria. -/
def handleSort (field sortField : SortField) (sortOrder : SortOrder) :
    SortField × SortOrder :=
  if sortField = field then (sortField, sortOrder.flip) else (field, .desc)

/-- The comma-separated search terms of the text filter: split on commas,
trim and lower-case each term, drop the empty ones (App.tsx line 144). -/
def filterTermsOf (filterText : String) : List (List Char) :=
  ((splitComma filterText.data).map
    (fun term => (trimData term).map Char.toLower)).filter
    (fun term => decide (0 < term.length))

/-- The text-filter stage of `filterQueues`: a no-op when the trimmed
filter string is empty, otherwise keeps the records whose lower-cased
name contains at least one search term. -/
def textFilter (filterText : String) (data : List Queue) : List Queue :=
  if trimData filterText.data = [] then data
  else
    data.filter (fun q =>
      (filterTermsOf filterText).any (fun term =>
        decide (term <:+: lowerData q.name)))

/-- The type-filter stage of `filterQueues` (the switch on `filterType`). -/
def typeFilter (filterType : FilterType) (favorites : Finset String)
    (data : List Queue) : List Queue :=
  match filterType with
  | .standard => data.filter (fun q => getQueueType q.name == "Standard")
  | .fifo => data.filter (fun q => getQueueType q.name == "FIFO")
  | .withMessages => data.filter (fun q => decide (0 < totalMessages q))
  | .favorites => data.filter (fun q => decide (q.name ∈ favorites))
  | .all => data

/-- `filterQueues` from App.tsx: the type filter runs first, the text
filter consumes its output. -/
def filterQueues (filterType : FilterType) (favorites : Finset String)
    (filterText : String) (data : List Queue) : List Queue :=
  textFilter filterText (typeFilter filterType favorites data)

/-- `getFilteredAndSortedQueues` from App.tsx: filter, then sort. -/
def getFilteredAndSortedQueues (filterType : FilterType)
    (favorites : Finset String) (filterText : String) (sortField : SortField)
    (sortOrder : SortOrder) (queues : List Queue) : List Queue :=
  sortQueues (filterQueues filterType favorites filterText queues)
    sortField sortOrder

/-- `toggleFavorite` from App.tsx: flip membership of one queue name. -/
def toggleFavorite (favorites : Finset String) (queueName : String) :
    Finset String :=
  if queueName ∈ favorites then favorites.erase queueName
  else insert queueName favorites

/-- The favorites-persistence effect: the full membership is written as
an array of the names (`Array.from(favorites)`; the enumeration order of
the set is immaterial to the stored membership, the embedding uses the
name-sorted enumeration). -/
def saveFavorites (favorites : Finset String) : List String :=
  favorites.sort (· ≤ ·)

/-- What the durable storage slot may hold at load time. -/
inductive StoredFavorites
  | missing
  | corrupt
  | stored (names : List String)

/-- The favorites-load effect on mount: absent or unparsable data leaves
the initial empty set, otherwise the stored names become the set. -/
def loadFavorites : StoredFavorites → Finset String
  | .missing => ∅
  | .corrupt => ∅
  | .stored names => names.toFinset

/-- The kind of in-flight destructive operation per queue name. -/
inductive OpKind | purging | deleting
deriving DecidableEq, Repr

/-- The `operationInProgress` map with no in-flight operation. -/
def emptyOps : String → Option OpKind := fun _ => none

/-- Writing one key of the `operationInProgress` map (object spread with
one key, or `delete` of one key). -/
def setOp (ops : String → Option OpKind) (queueName : String)
    (v : Option OpKind) : String → Option OpKind :=
  fun k => if k = queueName then v else ops k

/-- The component state of `App` that the polling controller and the
operation coordinator read and write. -/
structure AppState where
  queues : List Queue
  loading : Bool
  error : Option String
  lastUpdate : Option Nat
  operationInProgress : String → Option OpKind

/-- How one statistics-poll network cycle can end. -/
inductive FetchOutcome
  | transportFail (msg : String)
  | httpError (status : Nat)
  | parseFail (msg : String)
  | success (data : List Queue)
deriving DecidableEq, Repr

/-- `fetchQueues` from App.tsx as a state transition on the outcome of
its one network call: a non-ok status throws `HTTP error! status: <s>`,
any thrown error only sets `error` (and ends the initial loading state),
and only a fully parsed success replaces the snapshot. -/
def fetchQueues (outcome : FetchOutcome) (now : Nat) (st : AppState) :
    AppState :=
  match outcome with
  | .success data =>
      { st with queues := data, error := none, lastUpdate := some now,
                loading := false }
  | .httpError status =>
      { st with error := some ("HTTP error! status: " ++ toString status),
                loading := false }
  | .transportFail msg => { st with error := some msg, loading := false }
  | .parseFail msg => { st with error := some msg, loading := false }

/-- How one control-endpoint call (purge or delete) can end. -/
inductive CtrlOutcome
  | transportFail (msg : String)
  | httpError (status : Nat) (statusText body : String)
  | ok
deriving DecidableEq, Repr

/-- `purgeQueue` from App.tsx. Besides the new state it returns how many
control-endpoint calls and how many statistics fetches the invocation
issued. An unconfirmed dialog returns before any effect; a confirmed one
marks the name in-flight, performs the call, refreshes the statistics
exactly once on success, records an error message otherwise, and always
clears the in-flight marker in the `finally` block. -/
def purgeQueue (confirmed : Bool) (queueName : String) (ctrl : CtrlOutcome)
    (refresh : FetchOutcome) (now : Nat) (st : AppState) :
    AppState × Nat × Nat :=
  if !confirmed then (st, 0, 0)
  else
    let st1 := { st with operationInProgress := setOp st.operationInProgress queueName (some .purging) }
    match ctrl with
    | .ok =>
        let st2 := fetchQueues refresh now st1
        ({ st2 with operationInProgress := setOp st2.operationInProgress queueName none }, 1, 1)
    | .httpError status statusText body =>
        let msg := "Failed to purge queue: " ++ toString status ++ " " ++
          statusText ++ " - " ++ body
        let st2 := { st1 with error := some ("Failed to purge queue \"" ++ queueName ++ "\": " ++ msg) }
        ({ st2 with operationInProgress := setOp st2.operationInProgress queueName none }, 1, 0)
    | .transportFail msg =>
        let st2 := { st1 with error := some ("Failed to purge queue \"" ++ queueName ++ "\": " ++ msg) }
        ({ st2 with operationInProgress := setOp st2.operationInProgress queueName none }, 1, 0)

/-- `deleteQueue` from App.tsx; same shape as `purgeQueue` with the
`DeleteQueue` action and its own messages and marker kind. -/
def deleteQueue (confirmed : Bool) (queueName : String) (ctrl : CtrlOutcome)
    (refresh : FetchOutcome) (now : Nat) (st : AppState) :
    AppState × Nat × Nat :=
  if !confirmed then (st, 0, 0)
  else
    let st1 := { st with operationInProgress := setOp st.operationInProgress queueName (some .deleting) }
    match ctrl with
    | .ok =>
        let st2 := fetchQueues refresh now st1
        ({ st2 with operationInProgress := setOp st2.operationInProgress queueName none }, 1, 1)
    | .httpError status statusText body =>
        let msg := "Failed to delete queue: " ++ toString status ++ " " ++
          statusText ++ " - " ++ body
        let st2 := { st1 with error := some ("Failed to delete queue \"" ++ queueName ++ "\": " ++ msg) }
        ({ st2 with operationInProgress := setOp st2.operationInProgress queueName none }, 1, 0)
    | .transportFail msg =>
        let st2 := { st1 with error := some ("Failed to delete queue \"" ++ queueName ++ "\": " ++ msg) }
        ({ st2 with operationInProgress := setOp st2.operationInProgress queueName none }, 1, 0)

/-- The `orders` record of the specification's running example:
5 visible, 2 invisible, 0 delayed messages. -/
def exQ1 : Queue := { name := "orders", statistics :=
  { approximateNumberOfInvisibleMessages := 2,
    approximateNumberOfMessagesDelayed := 0,
    approximateNumberOfVisibleMessages := 5 } }

/-- The `orders.fifo` record of the specification's running example:
1 visible, 0 invisible, 3 delayed messages. -/
def exQ2 : Queue := { name := "orders.fifo", statistics :=
  { approximateNumberOfInvisibleMessages := 0,
    approximateNumberOfMessagesDelayed := 3,
    approximateNumberOfVisibleMessages := 1 } }

/-- A record tying with `exTie2` on every statistics column. -/
def exTie1 : Queue := { name := "a", statistics :=
  { approximateNumberOfInvisibleMessages := 0,
    approximateNumberOfMessagesDelayed := 0,
    approximateNumberOfVisibleMessages := 0 } }

/-- A record tying with `exTie1` on every statistics column. -/
def exTie2 : Queue := { name := "b", statistics :=
  { approximateNumberOfInvisibleMessages := 0,
    approximateNumberOfMessagesDelayed := 0,
    approximateNumberOfVisibleMessages := 0 } }

/-- A quiescent app state with an empty snapshot. -/
def exState : AppState :=
  { queues := [], loading := false, error := none, lastUpdate := none,
    operationInProgress := emptyOps }

/-- `lexLE` is reflexive. -/
theorem lexLE_refl : ∀ l : List Char, lexLE l l = true
  | [] => rfl
  | a :: as => by simp [lexLE, lexLE_refl as]

/-- `lexLE` is total. -/
theorem lexLE_total : ∀ l m : List Char, lexLE l m = true ∨ lexLE m l = true
  | [], _ => Or.inl rfl
  | _ :: _, [] => Or.inr rfl
  | a :: as, b :: bs => by
    by_cases hab : a = b
    · subst hab; simpa [lexLE] using lexLE_total as bs
    · rcases lt_or_gt_of_ne hab with h | h
      · left; simp [lexLE, hab, h]
      · right; simp [lexLE, Ne.symm hab, h]

/-- `lexLE` is antisymmetric. -/
theorem lexLE_antisymm :
    ∀ {l m : List Char}, lexLE l m = true → lexLE m l = true → l = m
  | [], [], _, _ => rfl
  | [], _ :: _, _, h => by simp [lexLE] at h
  | _ :: _, [], h, _ => by simp [lexLE] at h
  | a :: as, b :: bs, h1, h2 => by
    by_cases hab : a = b
    · subst hab
      simp only [lexLE, if_pos rfl] at h1 h2
      rw [lexLE_antisymm h1 h2]
    · exfalso
      simp [lexLE, hab, Ne.symm hab] at h1 h2
      exact absurd h2 (not_lt_of_lt h1)

/-- `lexLE` is transitive. -/
theorem lexLE_trans :
    ∀ {l m n : List Char},
      lexLE l m = true → lexLE m n = true → lexLE l n = true
  | [], _, _, _, _ => rfl
  | _ :: _, [], _, h, _ => by simp [lexLE] at h
  | _ :: _, _ :: _, [], _, h2 => by simp [lexLE] at h2
  | a :: as, b :: bs, c :: cs, h1, h2 => by
    by_cases hab : a = b <;> by_cases hbc : b = c
    · subst hab; subst hbc
      simp only [lexLE, if_pos rfl] at h1 h2 ⊢
      exact lexLE_trans h1 h2
    · subst hab
      simp [lexLE, hbc] at h2 ⊢
      exact h2
    · subst hbc
      simp [lexLE, hab] at h1 ⊢
      exact h1
    · simp [lexLE, hab] at h1
      simp [lexLE, hbc] at h2
      have hac : a < c := lt_trans h1 h2
      simp [lexLE, ne_of_lt hac, hac]

/-- `fieldLE` is total, for every sort field. -/
theorem fieldLE_total (f : SortField) (a b : Queue) :
    fieldLE f a b = true ∨ fieldLE f b a = true := by
  cases f
  · exact lexLE_total _ _
  · exact lexLE_total _ _
  · simpa [fieldLE] using Nat.le_total _ _
  · simpa [fieldLE] using Nat.le_total _ _
  · simpa [fieldLE] using Nat.le_total _ _

/-- `fieldLE` is transitive, for every sort field. -/
theorem fieldLE_trans (f : SortField) (a b c : Queue)
    (h1 : fieldLE f a b = true) (h2 : fieldLE f b c = true) :
    fieldLE f a c = true := by
  cases f <;> simp [fieldLE] at h1 h2 ⊢
  · exact lexLE_trans h1 h2
  · exact lexLE_trans h1 h2
  · exact le_trans h1 h2
  · exact le_trans h1 h2
  · exact le_trans h1 h2

/-- Two records below each other in both directions have the same
projection value on the selected field. -/
theorem sortValue_eq_of_fieldLE (f : SortField) (a b : Queue)
    (h1 : fieldLE f a b = true) (h2 : fieldLE f b a = true) :
    sortValue f a = sortValue f b := by
  cases f <;> simp [fieldLE] at h1 h2 <;> simp [sortValue]
  · exact lexLE_antisymm h1 h2
  · exact lexLE_antisymm h1 h2
  · exact Nat.le_antisymm h1 h2
  · exact Nat.le_antisymm h1 h2
  · exact Nat.le_antisymm h1 h2

/-- Records with equal projection values compare below each other. -/
theorem fieldLE_of_sortValue_eq (f : SortField) (a b : Queue)
    (h : sortValue f a = sortValue f b) : fieldLE f a b = true := by
  cases f <;> simp [sortValue] at h <;> simp [fieldLE, h]
  · exact lexLE_refl _
  · exact lexLE_refl _

/-- `queueLE` is total. -/
theorem queueLE_total (f : SortField) (o : SortOrder) (a b : Queue) :
    queueLE f o a b = true ∨ queueLE f o b a = true := by
  cases o
  · exact fieldLE_total f a b
  · exact fieldLE_total f b a

/-- `queueLE` is transitive. -/
theorem queueLE_trans (f : SortField) (o : SortOrder) (a b c : Queue)
    (h1 : queueLE f o a b = true) (h2 : queueLE f o b c = true) :
    queueLE f o a c = true := by
  cases o
  · exact fieldLE_trans f a b c h1 h2
  · exact fieldLE_trans f c b a h2 h1

/-- Flipping the sort order swaps the comparator's operands. -/
theorem queueLE_flip (f : SortField) (o : SortOrder) (a b : Queue) :
    queueLE f o.flip a b = queueLE f o b a := by
  cases o <;> rfl

/-- A stable comparator sort does not disturb the relative order inside
one equivalence class: inserting an element related to the whole class
puts it in front of none of the earlier class members. -/
theorem filter_orderedInsert_eq {α : Type} (r : α → α → Prop) [DecidableRel r]
    (p : α → Bool) (x : α) (h : ∀ y, p y = true → p x = true → r x y) :
    ∀ l : List α, (l.orderedInsert r x).filter p =
      if p x then x :: l.filter p else l.filter p := by
  intro l
  induction l with
  | nil => simp [List.orderedInsert, List.filter_cons]
  | cons y ys ih =>
    rw [List.orderedInsert]
    by_cases hr : r x y
    · rw [if_pos hr]
      exact List.filter_cons
    · rw [if_neg hr, List.filter_cons, ih]
      by_cases hy : p y <;> by_cases hx : p x
      · exact absurd (h y hy hx) hr
      · simp [hy, hx, List.filter_cons]
      · simp [hy, hx, List.filter_cons]
      · simp [hy, hx, List.filter_cons]

/-- Insertion sort is stable: filtering by any class of elements that
are pairwise related returns them in their original order. -/
theorem filter_insertionSort_eq {α : Type} (r : α → α → Prop) [DecidableRel r]
    (p : α → Bool) (h : ∀ a b, p a = true → p b = true → r a b) :
    ∀ l : List α, (l.insertionSort r).filter p = l.filter p
  | [] => rfl
  | x :: xs => by
    rw [List.insertionSort,
      filter_orderedInsert_eq r p x (fun y hy hx => h x y hx hy),
      filter_insertionSort_eq r p h xs, List.filter_cons]

/-- Two sorted permutations of each other coincide, as soon as the
relation is antisymmetric on the elements involved. -/
theorem eq_of_perm_of_sorted_of_antisymmOn {α : Type} {r : α → α → Prop} :
    ∀ {l₁ l₂ : List α}, l₁.Perm l₂ → l₁.Sorted r → l₂.Sorted r →
      (∀ a ∈ l₁, ∀ b ∈ l₁, r a b → r b a → a = b) → l₁ = l₂
  | [], _, hp, _, _, _ => hp.symm.eq_nil.symm
  | a :: t₁, l₂, hp, hs₁, hs₂, hanti => by
    cases l₂ with
    | nil => exact absurd hp.eq_nil (List.cons_ne_nil a t₁)
    | cons b t₂ =>
      have hab : a = b := by
        by_contra hne
        have ha2 : a ∈ b :: t₂ := hp.mem_iff.mp (List.mem_cons_self a t₁)
        have ha2' : a ∈ t₂ := by
          cases ha2 with
          | head => exact absurd rfl hne
          | tail _ h => exact h
        have hb1 : b ∈ a :: t₁ := hp.mem_iff.mpr (List.mem_cons_self b t₂)
        have hb1' : b ∈ t₁ := by
          cases hb1 with
          | head => exact absurd rfl (Ne.symm hne)
          | tail _ h => exact h
        have hrab : r a b := List.rel_of_sorted_cons hs₁ b hb1'
        have hrba : r b a := List.rel_of_sorted_cons hs₂ a ha2'
        exact hne (hanti a (List.mem_cons_self a t₁) b
          (List.mem_cons_of_mem a hb1') hrab hrba)
      subst hab
      have ht : t₁.Perm t₂ := hp.cons_inv
      have := eq_of_perm_of_sorted_of_antisymmOn ht hs₁.of_cons hs₂.of_cons
        (fun x hx y hy => hanti x (List.mem_cons_of_mem a hx) y
          (List.mem_cons_of_mem a hy))
      rw [this]

/-- C9: the sort used by the projection is stable — for every snapshot,
sort field, direction and projection value, the records carrying that
value appear in the output in exactly the order they had in the input. -/
theorem c9_sort_stable (data : List Queue) (field : SortField)
    (order : SortOrder) (k : SortKey) :
    (sortQueues data field order).filter
        (fun q => decide (sortValue field q = k)) =
      data.filter (fun q => decide (sortValue field q = k)) := by
  apply filter_insertionSort_eq
  intro a b ha hb
  simp only [decide_eq_true_eq] at ha hb
  have hk : sortValue field a = sortValue field b := ha.trans hb.symm
  cases order with
  | asc => exact fieldLE_of_sortValue_eq field a b hk
  | desc => exact fieldLE_of_sortValue_eq field b a hk.symm

/-- C1 (amended): sorting a snapshot by any field in either direction is
a permutation of the snapshot (nothing added or dropped), clicking the
active column again flips the direction, and — provided no two records
of the snapshot share the selected field's projection value — sorting in
the opposite direction yields exactly the reverse of the first sort's
order. (With tied projection values the reversal fails, because the
stable sort keeps tied records in input order in both directions.) -/
theorem c1_sort_opposite (data : List Queue) (field : SortField)
    (order : SortOrder) :
    (sortQueues data field order).Perm data ∧
    (sortQueues data field order.flip).Perm data ∧
    handleSort field field order = (field, order.flip) ∧
    ((∀ a ∈ data, ∀ b ∈ data, sortValue field a = sortValue field b → a = b) →
      sortQueues data field order.flip =
        (sortQueues data field order).reverse) := by
  refine ⟨List.perm_insertionSort _ data, List.perm_insertionSort _ data,
    by simp [handleSort], ?_⟩
  intro hinj
  have hperm : (sortQueues data field order.flip).Perm
      ((sortQueues data field order).reverse) :=
    (List.perm_insertionSort _ data).trans
      (((sortQueues data field order).reverse_perm.trans
        (List.perm_insertionSort _ data)).symm)
  haveI : IsTotal Queue (fun a b => queueLE field order.flip a b = true) :=
    ⟨fun a b => queueLE_total field order.flip a b⟩
  haveI : IsTrans Queue (fun a b => queueLE field order.flip a b = true) :=
    ⟨fun a b c => queueLE_trans field order.flip a b c⟩
  have hs₁ : (sortQueues data field order.flip).Sorted
      (fun a b => queueLE field order.flip a b = true) :=
    List.sorted_insertionSort _ data
  haveI : IsTotal Queue (fun a b => queueLE field order a b = true) :=
    ⟨fun a b => queueLE_total field order a b⟩
  haveI : IsTrans Queue (fun a b => queueLE field order a b = true) :=
    ⟨fun a b c => queueLE_trans field order a b c⟩
  have hs₂ : ((sortQueues data field order).reverse).Sorted
      (fun a b => queueLE field order.flip a b = true) := by
    show List.Pairwise _ _
    rw [List.pairwise_reverse]
    refine (List.sorted_insertionSort
      (fun a b => queueLE field order a b = true) data).imp ?_
    intro a b h
    rw [queueLE_flip]
    exact h
  refine eq_of_perm_of_sorted_of_antisymmOn hperm hs₁ hs₂ ?_
  intro a ha b hb h1 h2
  have ha' : a ∈ data := (List.perm_insertionSort _ data).subset ha
  have hb' : b ∈ data := (List.perm_insertionSort _ data).subset hb
  refine hinj a ha' b hb' ?_
  cases order with
  | asc => exact sortValue_eq_of_fieldLE field a b h2 h1
  | desc => exact sortValue_eq_of_fieldLE field a b h1 h2

/-- Witness for C1 on the specification's running example: the two
records differ on the `total` projection (7 and 4), so the descending
sort is the reverse of the ascending one. -/
theorem c1_sort_opposite_witness :
    sortQueues [exQ1, exQ2] .total .desc =
      (sortQueues [exQ1, exQ2] .total .asc).reverse :=
  (c1_sort_opposite [exQ1, exQ2] .total .asc).2.2.2 (by decide)

/-- Counterexample to C1 as stated: two records tying on the `visible`
projection stay in input order under both sort directions, so the
descending result is not the reverse of the ascending one. -/
theorem c1_counterexample :
    ¬ (sortQueues [exTie1, exTie2] .visible .desc =
        (sortQueues [exTie1, exTie2] .visible .asc).reverse) := by
  decide

/-- C2: a poll cycle ending in a non-success HTTP status, a transport
failure or an unparsable body leaves the previously held snapshot
unchanged; an HTTP failure with status `s` sets the error to a message
containing `s`; and the snapshot is replaced only by a fully parsed
successful response. -/
theorem c2_poll_failure (st : AppState) (now : Nat) :
    (∀ status : Nat,
      (fetchQueues (.httpError status) now st).queues = st.queues ∧
      ∃ msg, (fetchQueues (.httpError status) now st).error = some msg ∧
        (toString status).data <:+: msg.data) ∧
    (∀ msg, (fetchQueues (.transportFail msg) now st).queues = st.queues ∧
      (fetchQueues (.transportFail msg) now st).error = some msg) ∧
    (∀ msg, (fetchQueues (.parseFail msg) now st).queues = st.queues) ∧
    (∀ outcome, (fetchQueues outcome now st).queues ≠ st.queues →
      ∃ data, outcome = .success data ∧
        (fetchQueues outcome now st).queues = data) := by
  refine ⟨?_, fun msg => ⟨rfl, rfl⟩, fun msg => rfl, ?_⟩
  · intro status
    refine ⟨rfl, "HTTP error! status: " ++ toString status, rfl, ?_⟩
    rw [String.data_append]
    exact List.IsSuffix.isInfix
      (List.suffix_append "HTTP error! status: ".data (toString status).data)
  · intro outcome h
    cases outcome with
    | transportFail msg => exact absurd rfl h
    | httpError status => exact absurd rfl h
    | parseFail msg => exact absurd rfl h
    | success data => exact ⟨data, rfl, rfl⟩

/-- Witness for C2: a poll failing with HTTP 500 against a state holding
the example snapshot keeps that snapshot and reports a message
containing `500`; a successful poll is the only way the snapshot moves. -/
theorem c2_poll_failure_witness :
    ((fetchQueues (.httpError 500) 7 { exState with queues := [exQ1] }).queues
        = [exQ1] ∧
      ∃ msg, (fetchQueues (.httpError 500) 7
          { exState with queues := [exQ1] }).error = some msg ∧
        "500".data <:+: msg.data) ∧
    ∃ data, (FetchOutcome.success [exQ2]) = FetchOutcome.success data ∧
      (fetchQueues (.success [exQ2]) 7
        { exState with queues := [exQ1] }).queues = data :=
  ⟨(c2_poll_failure { exState with queues := [exQ1] } 7).1 500,
    (c2_poll_failure { exState with queues := [exQ1] } 7).2.2.2
      (.success [exQ2]) (by decide)⟩

/-- C3: once a confirmed purge or delete settles, the in-flight marker
for the queue name is gone from the operation map; the operation issues
exactly one statistics refresh when the control call succeeds, and none
when it fails. -/
theorem c3_operation_settles (queueName : String) (ctrl : CtrlOutcome)
    (refresh : FetchOutcome) (now : Nat) (st : AppState) :
    ((purgeQueue true queueName ctrl refresh now st).1.operationInProgress
        queueName = none) ∧
    ((deleteQueue true queueName ctrl refresh now st).1.operationInProgress
        queueName = none) ∧
    (ctrl = .ok →
      (purgeQueue true queueName ctrl refresh now st).2.2 = 1 ∧
      (deleteQueue true queueName ctrl refresh now st).2.2 = 1) ∧
    (ctrl ≠ .ok →
      (purgeQueue true queueName ctrl refresh now st).2.2 = 0 ∧
      (deleteQueue true queueName ctrl refresh now st).2.2 = 0) := by
  cases ctrl with
  | ok =>
      exact ⟨by simp [purgeQueue, fetchQueues, setOp],
        by simp [deleteQueue, fetchQueues, setOp],
        fun _ => ⟨rfl, rfl⟩, fun h => absurd rfl h⟩
  | httpError status statusText body =>
      refine ⟨by simp [purgeQueue, setOp], by simp [deleteQueue, setOp],
        ?_, ?_⟩
      · intro h; cases h
      · intro _; exact ⟨rfl, rfl⟩
  | transportFail msg =>
      refine ⟨by simp [purgeQueue, setOp], by simp [deleteQueue, setOp],
        ?_, ?_⟩
      · intro h; cases h
      · intro _; exact ⟨rfl, rfl⟩

/-- Witness for C3: a successful delete of `orders` clears the marker
and triggers exactly one statistics fetch. -/
theorem c3_operation_settles_witness :
    (deleteQueue true "orders" .ok (.success []) 0 exState).1.operationInProgress
        "orders" = none ∧
      (deleteQueue true "orders" .ok (.success []) 0 exState).2.2 = 1 :=
  ⟨(c3_operation_settles "orders" .ok (.success []) 0 exState).2.1,
    ((c3_operation_settles "orders" .ok (.success []) 0 exState).2.2.1
      rfl).2⟩

/-- C4: an unconfirmed purge or delete is a complete no-op — the state
(in particular the operation map) is returned unchanged and neither a
control call nor a statistics fetch is issued. -/
theorem c4_unconfirmed_noop (queueName : String) (ctrl : CtrlOutcome)
    (refresh : FetchOutcome) (now : Nat) (st : AppState) :
    purgeQueue false queueName ctrl refresh now st = (st, 0, 0) ∧
    deleteQueue false queueName ctrl refresh now st = (st, 0, 0) :=
  ⟨rfl, rfl⟩

/-- C5: the projection filters by type first and by text second, the
text stage consuming the type stage's output; `all` removes nothing,
`standard` and `fifo` keep exactly the records of the matching derived
type, `withMessages` keeps exactly the records whose derived total is
positive, and `favorites` keeps exactly the records whose name is in the
favorites set. -/
theorem c5_filter_stages (ft : FilterType) (favorites : Finset String)
    (filterText : String) (data : List Queue) (q : Queue) :
    filterQueues ft favorites filterText data =
      textFilter filterText (typeFilter ft favorites data) ∧
    typeFilter .all favorites data = data ∧
    (q ∈ typeFilter .standard favorites data ↔
      q ∈ data ∧ getQueueType q.name = "Standard") ∧
    (q ∈ typeFilter .fifo favorites data ↔
      q ∈ data ∧ getQueueType q.name = "FIFO") ∧
    (q ∈ typeFilter .withMessages favorites data ↔
      q ∈ data ∧ 0 < totalMessages q) ∧
    (q ∈ typeFilter .favorites favorites data ↔
      q ∈ data ∧ q.name ∈ favorites) := by
  refine ⟨rfl, rfl, ?_, ?_, ?_, ?_⟩ <;>
    simp [typeFilter, List.mem_filter]

/-- C6: the text filter is the identity when the trimmed filter string
is empty; otherwise a record passes precisely when its lower-cased name
contains at least one of the comma-separated, trimmed, lower-cased,
non-empty search terms. -/
theorem c6_text_terms (filterText : String) (data : List Queue) (q : Queue) :
    (trimData filterText.data = [] → textFilter filterText data = data) ∧
    (trimData filterText.data ≠ [] →
      (q ∈ textFilter filterText data ↔
        q ∈ data ∧ ∃ term ∈ filterTermsOf filterText,
          term <:+: lowerData q.name)) := by
  constructor
  · intro h
    simp [textFilter, h]
  · intro h
    simp [textFilter, h, List.mem_filter, List.any_eq_true]

/-- Witness for C6: a whitespace-only filter keeps the example record,
and the filter `a, B` admits `orders` through the term `a`. -/
theorem c6_text_terms_witness :
    textFilter " " [exQ1] = [exQ1] ∧
    (exQ1 ∈ textFilter "a, B" [exQ1] ↔
      exQ1 ∈ [exQ1] ∧ ∃ term ∈ filterTermsOf "a, B",
        term <:+: lowerData exQ1.name) :=
  ⟨(c6_text_terms " " [exQ1] exQ1).1 (by decide),
    (c6_text_terms "a, B" [exQ1] exQ1).2 (by decide)⟩

/-- C10: a filter string that is non-empty after trimming but whose
comma-separated terms are all empty after trimming makes the text-filter
stage drop every record, so the whole projection is empty. -/
theorem c10_all_terms_empty (filterText : String) (data : List Queue)
    (ft : FilterType) (favorites : Finset String) (sf : SortField)
    (so : SortOrder) (h1 : trimData filterText.data ≠ [])
    (h2 : filterTermsOf filterText = []) :
    textFilter filterText data = [] ∧
    getFilteredAndSortedQueues ft favorites filterText sf so data = [] := by
  have ht : ∀ d : List Queue, textFilter filterText d = [] := by
    intro d
    simp [textFilter, h1, h2]
  refine ⟨ht data, ?_⟩
  unfold getFilteredAndSortedQueues filterQueues
  rw [ht (typeFilter ft favorites data)]
  rfl

/-- Witness for C10: the filter string `,` trims to something non-empty
yet has no non-empty term, and empties the projection. -/
theorem c10_all_terms_empty_witness :
    textFilter "," [exQ1] = [] ∧
    getFilteredAndSortedQueues .all ∅ "," .name .asc [exQ1] = [] :=
  c10_all_terms_empty "," [exQ1] .all ∅ .name .asc (by decide) (by decide)

/-- C7: toggling a name and reloading the favorites from the persisted
storage reproduces exactly the membership that resulted from the toggle
(both as set equality and per-name membership), and toggling the same
name twice restores the original set. -/
theorem c7_favorites_roundtrip (favorites : Finset String)
    (queueName : String) :
    loadFavorites (.stored (saveFavorites
        (toggleFavorite favorites queueName))) =
      toggleFavorite favorites queueName ∧
    (∀ name, name ∈ loadFavorites (.stored (saveFavorites
        (toggleFavorite favorites queueName))) ↔
      name ∈ toggleFavorite favorites queueName) ∧
    toggleFavorite (toggleFavorite favorites queueName) queueName =
      favorites := by
  have hload : ∀ s : Finset String,
      loadFavorites (.stored (saveFavorites s)) = s := by
    intro s
    show (Finset.sort (· ≤ ·) s).toFinset = s
    exact Finset.sort_toFinset _ _
  refine ⟨hload _, fun name => by rw [hload], ?_⟩
  by_cases h : queueName ∈ favorites
  · simp only [toggleFavorite]
    rw [if_pos h, if_neg (Finset.not_mem_erase queueName favorites)]
    exact Finset.insert_erase h
  · simp only [toggleFavorite]
    rw [if_neg h, if_pos (Finset.mem_insert_self queueName favorites)]
    exact Finset.erase_insert h

/-- C8: a record's derived type is `FIFO` precisely when its lower-cased
name contains the substring `.fifo`, it is `Standard` precisely
otherwise, and the two cases are exhaustive and mutually exclusive. -/
theorem c8_queue_type (queueName : String) :
    (getQueueType queueName = "FIFO" ↔
      ".fifo".data <:+: lowerData queueName) ∧
    (getQueueType queueName = "Standard" ↔
      ¬ ".fifo".data <:+: lowerData queueName) ∧
    (getQueueType queueName = "FIFO" ∨ getQueueType queueName = "Standard") ∧
    ¬ (getQueueType queueName = "FIFO" ∧
        getQueueType queueName = "Standard") := by
  have hne : ("FIFO" : String) ≠ "Standard" := by decide
  unfold getQueueType
  by_cases h : ".fifo".data <:+: lowerData queueName
  · rw [if_pos h]
    exact ⟨⟨fun _ => h, fun _ => rfl⟩,
      ⟨fun he => absurd he hne, fun hn => absurd h hn⟩,
      Or.inl rfl, fun hc => hne (hc.1.symm.trans rfl ▸ hc.1.symm.trans hc.2)⟩
  · rw [if_neg h]
    exact ⟨⟨fun he => absurd he.symm hne, fun hi => absurd hi h⟩,
      ⟨fun _ => h, fun _ => rfl⟩,
      Or.inr rfl, fun hc => hne (hc.1.symm.trans hc.2)⟩

end SQSViewer

namespace SQSViewer

example : lowerData "AbC" = ['a', 'b', 'c'] := by decide

example : getQueueType "orders.FIFO" = "FIFO" := by decide

example : getQueueType "orders" = "Standard" := by decide

example :
    sortQueues
      [⟨"b", ⟨0, 0, 0⟩⟩, ⟨"a", ⟨0, 0, 0⟩⟩] .visible .asc =
      [⟨"b", ⟨0, 0, 0⟩⟩, ⟨"a", ⟨0, 0, 0⟩⟩] := by decide

example : trimData "  a, B ".data = "a, B".data := by decide

example : splitComma "a,,b".data = ["a".data, [], "b".data] := by decide

end SQSViewer
